import Mathlib

/-!
Verification of the importance-reweighting engine specified for the bilby
repository (spec §§3–4, §7, §8) against the example script
`src/examples/gw_examples/injection_examples/fake_sampler_example.py`.

The reweighting engine itself (`bilby.core.result.reweight` and its helpers)
is code of this repository that is not present under `src/`; only its caller,
the example script, is. Following the spec, the engine is modelled here from
the spec's own formulas, and the definitions say so in their doc comments.
The script's own state (shared waveform generator, deep-copied priors) is
embedded directly from the source lines.
-/

namespace BilbyReweight

/-- Modelled from the spec: a posterior `Sample` (spec §3) — a parameter
vector together with the log-likelihood and log-prior recorded under the
original ("old") model.  The missing source is `bilby.core.result`. -/
structure Sample (P : Type) where
  params : P
  logL_old : ℝ
  logP_old : ℝ

/-- Modelled from the spec: a `ReweightingJob` (spec §3) — samples drawn
under the old model, the new model's evaluator (`none` models a
`DomainError`: the parameter vector lies outside the new model's support,
spec §4.2 / §7), and the old log-evidence.  The missing source is
`bilby.core.result.reweight`. -/
structure ReweightingJob (P : Type) where
  samples : List (Sample P)
  newEval : P → Option (ℝ × ℝ)
  log_evidence_old : ℝ

/-- Modelled from the spec: `logsumexp` over a list of reals (spec §4.2
step 3, §4.3 step 3). -/
noncomputable def logSumExp (xs : List ℝ) : ℝ :=
  Real.log (xs.map Real.exp).sum

/-- Maximum of a list of reals, `0` for the empty list (only ever applied to
nonempty lists of log-weights; spec §4.2 step 4 max-stabilization). -/
def listMax : List ℝ → ℝ
  | [] => 0
  | x :: xs => xs.foldl max x

/-- Modelled from the spec: numerically stabilized weights
`w_i = exp(log_w_i - max_j log_w_j)` (spec §4.2 step 4). -/
noncomputable def stabilized (xs : List ℝ) : List ℝ :=
  xs.map (fun x => Real.exp (x - listMax xs))

/-- Modelled from the spec: effective sample size
`N_eff = (sum w_i)^2 / sum(w_i^2)` (spec §4.2 step 5). -/
noncomputable def effSampleSize (w : List ℝ) : ℝ :=
  w.sum ^ 2 / (w.map (fun x => x ^ 2)).sum

/-- Modelled from the spec: `efficiency = N_eff / N` over the active
weights (spec §4.2 step 5; the §8 scenario computes it over the samples
that survived `DomainError` exclusion). -/
noncomputable def efficiencyOf (w : List ℝ) : ℝ :=
  effSampleSize w / w.length

/-- Modelled from the spec: the per-sample log-importance-weight
`log_w_i = (log_likelihood_new_i + log_prior_new_i) -
(log_likelihood_old_i + log_prior_old_i)` (spec §4.2 step 2); a sample whose
new-model evaluation fails with `DomainError` has its weight set to
`-infinity`, modelled as `none` (spec §4.2 error conditions). -/
noncomputable def logWeightOf (job : ReweightingJob P) (s : Sample P) : Option ℝ :=
  match job.newEval s.params with
  | some lp => some ((lp.1 + lp.2) - (s.logL_old + s.logP_old))
  | none => none

/-- Modelled from the spec: the sequence of per-sample log-weights
(spec §4.2 steps 1–2). -/
noncomputable def logWeights (job : ReweightingJob P) : List (Option ℝ) :=
  job.samples.map (logWeightOf job)

/-- The log-weights of the samples that were not excluded by
`DomainError` (finite entries only). -/
noncomputable def activeLogWeights (job : ReweightingJob P) : List ℝ :=
  (logWeights job).filterMap id

/-- Modelled from the spec: the `WeightedResult` record (spec §3). -/
structure WeightedResult where
  logWeights : List (Option ℝ)
  weights : List ℝ
  log_evidence_new : ℝ
  efficiency : ℝ

/-- Modelled from the spec: the fatal error raised when every sample is
excluded (spec §4.2 error conditions, §7). -/
inductive ReweightError
  | AllSamplesRejected
deriving DecidableEq

/-- Assemble a `WeightedResult` from a job and its sequence of per-sample
log-weights; fails with `AllSamplesRejected` when no sample survived.
Modelled from the spec: §4.2 steps 3–5 and error conditions. -/
noncomputable def computeFrom (job : ReweightingJob P) (lw : List (Option ℝ)) :
    Except ReweightError WeightedResult :=
  let act := lw.filterMap id
  if act.isEmpty then
    .error .AllSamplesRejected
  else
    .ok
      { logWeights := lw
        weights := stabilized act
        log_evidence_new :=
          job.log_evidence_old + logSumExp act - Real.log job.samples.length
        efficiency := efficiencyOf (stabilized act) }

/-- Modelled from the spec: `WeightComputer.compute` on the flat posterior
(spec §4.2, from-scratch path, no resume cache). -/
noncomputable def WeightComputer.compute (job : ReweightingJob P) :
    Except ReweightError WeightedResult :=
  computeFrom job (logWeights job)

/-- Modelled from the spec: the `ResumeMismatch` warning (spec §4.2 side
effect, §7): an invalid resume cache is recovered from by full
recomputation and logged as a warning, never a fatal error. -/
inductive ResumeWarning
  | ResumeMismatch
deriving DecidableEq

/-- Modelled from the spec: validation of the resume file against the
sample count (spec §6, §4.2): an absent file starts fresh with no warning;
a present cache is reused only when its row count matches the sample count,
otherwise the whole cache is discarded and a `ResumeMismatch` warning is
emitted. -/
def resolveCache (n : ℕ) (cache : Option (List (ℝ × ℝ))) :
    List ResumeWarning × Option (List (ℝ × ℝ)) :=
  match cache with
  | none => ([], none)
  | some rows => if rows.length = n then ([], some rows) else ([.ResumeMismatch], none)

/-- Log-weight of a sample whose new-model pair
`(log_likelihood_new, log_prior_new)` was read back from a valid resume row
instead of being recomputed (spec §4.2 steps 1–2). -/
noncomputable def logWeightOfRow (s : Sample P) (row : ℝ × ℝ) : Option ℝ :=
  some ((row.1 + row.2) - (s.logL_old + s.logP_old))

/-- Per-sample log-weights when a resume cache is supplied: a validated
cache replaces the new-model evaluations row by row; a discarded or absent
cache falls back to recomputation (spec §4.2). -/
noncomputable def logWeightsWith (job : ReweightingJob P)
    (cache : Option (List (ℝ × ℝ))) : List (Option ℝ) :=
  match (resolveCache job.samples.length cache).2 with
  | none => logWeights job
  | some rows => (job.samples.zip rows).map (fun sr => logWeightOfRow sr.1 sr.2)

/-- Modelled from the spec: `WeightComputer.compute` with a resume file
(spec §4.2 side effect, §6): returns the warnings raised while validating
the cache alongside the result. -/
noncomputable def WeightComputer.computeWithResume (job : ReweightingJob P)
    (cache : Option (List (ℝ × ℝ))) :
    List ResumeWarning × Except ReweightError WeightedResult :=
  ((resolveCache job.samples.length cache).1,
    computeFrom job (logWeightsWith job cache))

/-- Modelled from the spec: a `NestedChainPoint` (spec §3) carrying its log
prior-volume increment, fixed from the original chain (spec §4.3 step 2). -/
structure NestedChainPoint (P : Type) where
  params : P
  logL_old : ℝ
  logVolIncrement : ℝ

/-- Modelled from the spec: a nested-sampling chain — the ordered sequence
of `NestedChainPoint`s together with the `n_live` scalar (spec §6). -/
structure NestedChain (P : Type) where
  points : List (NestedChainPoint P)
  nLive : ℕ

/-- Modelled from the spec: each chain point's new nested-sampling
log-weight, `log_weight_i = log_prior_volume_increment_i +
log_likelihood_new_i` (spec §4.3 step 2), for `NestedSamplingReweighter`
(invoked when `use_nested_samples=True`). -/
noncomputable def nsLogWeights (chain : NestedChain P) (newL : P → ℝ) : List ℝ :=
  chain.points.map (fun pt => pt.logVolIncrement + newL pt.params)

/-- Modelled from the spec: the nested-sampling evidence
`log_evidence_new = logsumexp(log_weight_i)` (spec §4.3 step 3). -/
noncomputable def nsLogEvidence (chain : NestedChain P) (newL : P → ℝ) : ℝ :=
  logSumExp (nsLogWeights chain newL)

/-- Modelled from the spec: the nested-sampling information
`sum(p_i * (log_likelihood_new_i - log_evidence_new))` with
`p_i = exp(log_weight_i - log_evidence_new)` (spec §4.3 step 3). -/
noncomputable def nsInformation (chain : NestedChain P) (newL : P → ℝ) : ℝ :=
  (chain.points.map (fun pt =>
    Real.exp ((pt.logVolIncrement + newL pt.params) - nsLogEvidence chain newL) *
      (newL pt.params - nsLogEvidence chain newL))).sum

/-- Modelled from the spec: the nested-sampling evidence uncertainty
`sqrt(information / n_live)` (spec §4.3 step 3). -/
noncomputable def nsUncertainty (chain : NestedChain P) (newL : P → ℝ) : ℝ :=
  Real.sqrt (nsInformation chain newL / chain.nLive)

end BilbyReweight

namespace FakeSamplerScript

/-- A `bilby.gw.WaveformGenerator` as the script uses it: the mutable
`waveform_arguments["waveform_approximant"]` entry it carries
(script lines 46–58, 97, 115). -/
structure WaveformGenerator where
  waveform_approximant : String
deriving DecidableEq

/-- A `bilby.gw.GravitationalWaveTransient` likelihood holds a reference to
its waveform generator (script lines 99–101 and 117–119), modelled as an
address into a generator heap. -/
structure GravitationalWaveTransient where
  generatorRef : ℕ
deriving DecidableEq

/-- Address at which the script's single waveform generator is allocated
(line 52). -/
def wfgAddr : ℕ := 0

/-- Generator heap after line 58: the generator was constructed with
`waveform_arguments`, whose `waveform_approximant` is `"IMRPhenomXPHM"`
(line 47). -/
def heapLine58 : ℕ → WaveformGenerator :=
  fun _ => ⟨"IMRPhenomXPHM"⟩

/-- Line 97 mutates the shared generator:
`waveform_generator.waveform_arguments["waveform_approximant"] = "IMRPhenomXP"`. -/
def heapLine97 : ℕ → WaveformGenerator :=
  Function.update heapLine58 wfgAddr ⟨"IMRPhenomXP"⟩

/-- `likelihood_1` (line 99) captures a reference to the shared generator. -/
def likelihood_1 : GravitationalWaveTransient := ⟨wfgAddr⟩

/-- The heap in effect while `result_1` is sampled (`bilby.run_sampler`,
lines 103–112): no mutation between lines 97 and 103. -/
def heapAtSampling : ℕ → WaveformGenerator := heapLine97

/-- Line 115 mutates the shared generator again:
`waveform_generator.waveform_arguments["waveform_approximant"] = "IMRPhenomXPHM"`. -/
def heapLine115 : ℕ → WaveformGenerator :=
  Function.update heapLine97 wfgAddr ⟨"IMRPhenomXPHM"⟩

/-- `likelihood_2` (line 117) captures a reference to the same shared
generator. -/
def likelihood_2 : GravitationalWaveTransient := ⟨wfgAddr⟩

/-- The heap in effect at the `bilby.core.result.reweight` call
(lines 128–136): no generator mutation after line 115. -/
def heapAtReweight : ℕ → WaveformGenerator := heapLine115

/-- The waveform approximant a likelihood evaluates under a given heap:
it dereferences its generator and reads `waveform_approximant`. -/
def approximantOf (heap : ℕ → WaveformGenerator)
    (lik : GravitationalWaveTransient) : String :=
  (heap lik.generatorRef).waveform_approximant

/-- A prior entry of the script's prior dictionaries: the entries the
script assigns explicitly (lines 72–95, 125–126), and the untouched
`BBHPriorDict` defaults, identified by their key. -/
inductive Prior
  | uniform (lo hi : ℚ)
  | deltaFunction (v : ℚ)
  | uniformInComponentsChirpMass (lo hi : ℚ)
  | uniformInComponentsMassRatio (lo hi : ℚ)
  | bbhDefault (key : String)
deriving DecidableEq

/-- A prior dictionary: an ordered association list of keyed priors. -/
abbrev PriorDict : Type := List (String × Prior)

/-- Dictionary lookup, first matching key wins. -/
def dictGet : PriorDict → String → Option Prior
  | [], _ => none
  | kv :: d, k => if kv.1 = k then some kv.2 else dictGet d k

/-- Replace every entry under key `k` with value `v`, keeping order. -/
def replaceKey : PriorDict → String → Prior → PriorDict
  | [], _, _ => []
  | kv :: d, k, v => (if kv.1 = k then (k, v) else kv) :: replaceKey d k v

/-- Whether the dictionary has an entry under key `k`. -/
def containsKey (d : PriorDict) (k : String) : Bool :=
  d.any (fun kv => kv.1 = k)

/-- Python dictionary assignment `d[k] = v`: overwrite when the key exists,
append otherwise. -/
def dictSet (d : PriorDict) (k : String) (v : Prior) : PriorDict :=
  if containsKey d k then replaceKey d k v else d ++ [(k, v)]

/-- Python `del d[k]`. -/
def dictDel (d : PriorDict) (k : String) : PriorDict :=
  d.filter (fun kv => kv.1 ≠ k)

/-- `injection_parameters["geocent_time"]` (line 41). -/
def injectionGeocentTime : ℚ := 1126259642.413

/-- The keys of a fresh `bilby.gw.prior.BBHPriorDict()` (line 72), each
bound to its library default. -/
def bbhPriorDict : PriorDict :=
  ["mass_1", "mass_2", "mass_ratio", "chirp_mass", "luminosity_distance",
   "dec", "ra", "theta_jn", "psi", "phase", "a_1", "a_2", "tilt_1", "tilt_2",
   "phi_12", "phi_jl"].map (fun k => (k, Prior.bbhDefault k))

/-- The first-stage prior dictionary `priors` as it stands after line 95:
eleven parameters pinned to their injection values (lines 73–86, modelled
as delta-function priors), `mass_1`/`mass_2` deleted (line 87), and
`chirp_mass`, `mass_ratio`, `geocent_time` set to uniform priors
(lines 88–95). -/
def priorsLine95 : PriorDict :=
  dictSet (dictSet (dictSet
    (dictDel (dictDel
      (dictSet (dictSet (dictSet (dictSet (dictSet (dictSet (dictSet
        (dictSet (dictSet (dictSet (dictSet bbhPriorDict
          "a_1" (.deltaFunction 0.8))
          "a_2" (.deltaFunction 0.3))
          "tilt_1" (.deltaFunction 0))
          "tilt_2" (.deltaFunction 0))
          "theta_jn" (.deltaFunction 0.4))
          "psi" (.deltaFunction 0.659))
          "ra" (.deltaFunction 1.375))
          "dec" (.deltaFunction (-1.2108)))
          "phi_12" (.deltaFunction 1.7))
          "phi_jl" (.deltaFunction 0.3))
          "luminosity_distance" (.deltaFunction 2000))
      "mass_1") "mass_2")
    "chirp_mass" (.uniform 30 40))
    "mass_ratio" (.uniform 0.05 0.25))
    "geocent_time" (.uniform (injectionGeocentTime - 0.1) (injectionGeocentTime + 0.1))

/-- Address of the dictionary object bound to `priors`. -/
def priorsAddr : ℕ := 0

/-- Address of the fresh dictionary object created by
`deepcopy(priors)` (line 124). -/
def priors2Addr : ℕ := 1

/-- Heap of prior-dictionary objects in effect while `result_1` is sampled
(line 103): only the object bound to `priors` exists; unused addresses
hold the empty dictionary. -/
def priorHeapAtSampling : ℕ → PriorDict :=
  Function.update (fun _ => ([] : PriorDict)) priorsAddr priorsLine95

/-- Line 124: `priors_2 = deepcopy(priors)` allocates a fresh object at a
new address holding a copy of the value of `priors`. -/
def priorHeapLine124 : ℕ → PriorDict :=
  Function.update priorHeapAtSampling priors2Addr (priorHeapAtSampling priorsAddr)

/-- Line 125: `priors_2["chirp_mass"] = UniformInComponentsChirpMass(30, 40)`
mutates only the object bound to `priors_2`. -/
def priorHeapLine125 : ℕ → PriorDict :=
  Function.update priorHeapLine124 priors2Addr
    (dictSet (priorHeapLine124 priors2Addr) "chirp_mass"
      (.uniformInComponentsChirpMass 30 40))

/-- Line 126: `priors_2["mass_ratio"] = UniformInComponentsMassRatio(0.05, 0.25)`
mutates only the object bound to `priors_2`. -/
def priorHeapLine126 : ℕ → PriorDict :=
  Function.update priorHeapLine125 priors2Addr
    (dictSet (priorHeapLine125 priors2Addr) "mass_ratio"
      (.uniformInComponentsMassRatio 0.05 0.25))

/-- The heap of prior-dictionary objects at the
`bilby.core.result.reweight` call (lines 128–136): nothing mutates the
dictionaries after line 126. -/
def priorHeapAtReweight : ℕ → PriorDict := priorHeapLine126

end FakeSamplerScript

namespace BilbyReweight

lemma computeFrom_of_not_isEmpty (job : ReweightingJob P) (lw : List (Option ℝ))
    (h : (lw.filterMap id).isEmpty = false) :
    computeFrom job lw = .ok
      { logWeights := lw
        weights := stabilized (lw.filterMap id)
        log_evidence_new :=
          job.log_evidence_old + logSumExp (lw.filterMap id)
            - Real.log job.samples.length
        efficiency := efficiencyOf (stabilized (lw.filterMap id)) } := by
  unfold computeFrom
  simp [h]

lemma compute_log_evidence (job : ReweightingJob P) (r : WeightedResult)
    (h : WeightComputer.compute job = .ok r) :
    r.log_evidence_new =
      job.log_evidence_old + logSumExp (activeLogWeights job)
        - Real.log job.samples.length := by
  unfold WeightComputer.compute computeFrom at h
  by_cases he : ((logWeights job).filterMap id).isEmpty
  · simp [he] at h
  · simp only [he, Bool.false_eq_true, if_false] at h
    cases h
    rfl

lemma compute_weights_eq (job : ReweightingJob P) (r : WeightedResult)
    (h : WeightComputer.compute job = .ok r) :
    r.weights = stabilized (activeLogWeights job) ∧
    r.efficiency = efficiencyOf (stabilized (activeLogWeights job)) ∧
    (activeLogWeights job).isEmpty = false := by
  unfold WeightComputer.compute computeFrom at h
  by_cases he : ((logWeights job).filterMap id).isEmpty
  · simp [he] at h
  · simp only [he, Bool.false_eq_true, if_false] at h
    cases h
    exact ⟨rfl, rfl, by simpa [activeLogWeights] using he⟩

end BilbyReweight

namespace BilbyReweight

/-- The spec §8 scenario: three samples with all old log-densities zero,
whose new-model evaluation returns log-likelihoods `1, 2, 3` (the sample's
parameter value) and log-priors `0`; `z` is the old log-evidence. -/
noncomputable def scenarioJob3 (z : ℝ) : ReweightingJob ℝ :=
  { samples := [⟨1, 0, 0⟩, ⟨2, 0, 0⟩, ⟨3, 0, 0⟩]
    newEval := fun x => some (x, 0)
    log_evidence_old := z }

/-- The `WeightedResult` produced on the §8 scenario with old
log-evidence `0`. -/
noncomputable def scenarioResult3 : WeightedResult :=
  { logWeights := logWeights (scenarioJob3 0)
    weights := stabilized (activeLogWeights (scenarioJob3 0))
    log_evidence_new :=
      (scenarioJob3 0).log_evidence_old +
        logSumExp (activeLogWeights (scenarioJob3 0)) -
        Real.log (scenarioJob3 0).samples.length
    efficiency := efficiencyOf (stabilized (activeLogWeights (scenarioJob3 0))) }

lemma compute_scenarioJob3_zero :
    WeightComputer.compute (scenarioJob3 0) = .ok scenarioResult3 :=
  computeFrom_of_not_isEmpty (scenarioJob3 0) (logWeights (scenarioJob3 0))
    (by simp [logWeights, logWeightOf, scenarioJob3])

end BilbyReweight

/-- C1: `WeightComputer.compute` gives each sample the log-importance-weight
`(log_likelihood_new + log_prior_new) - (log_likelihood_old + log_prior_old)`
and returns `log_evidence_new = log_evidence_old + logsumexp(log_w) - log N`;
on the §8 scenario (three samples, all old log-densities and new log-priors
zero, new log-likelihoods `[1,2,3]`) the log-weights are `[1,2,3]` and
`log_evidence_new = log_evidence_old + logsumexp([1,2,3]) - log 3`. -/
theorem claim_c1_importance_weight_and_evidence :
    (∀ (P : Type) (job : BilbyReweight.ReweightingJob P)
      (s : BilbyReweight.Sample P) (l p : ℝ),
      job.newEval s.params = some (l, p) →
      BilbyReweight.logWeightOf job s =
        some ((l + p) - (s.logL_old + s.logP_old))) ∧
    (∀ (P : Type) (job : BilbyReweight.ReweightingJob P)
      (r : BilbyReweight.WeightedResult),
      BilbyReweight.WeightComputer.compute job = .ok r →
      r.log_evidence_new =
        job.log_evidence_old +
          BilbyReweight.logSumExp (BilbyReweight.activeLogWeights job) -
          Real.log job.samples.length) ∧
    (∀ z : ℝ, BilbyReweight.logWeights (BilbyReweight.scenarioJob3 z) =
      [some 1, some 2, some 3]) ∧
    ∀ (z : ℝ) (r : BilbyReweight.WeightedResult),
      BilbyReweight.WeightComputer.compute (BilbyReweight.scenarioJob3 z) = .ok r →
      r.log_evidence_new = z + BilbyReweight.logSumExp [1, 2, 3] - Real.log 3 := by
  refine ⟨?_, ?_, ?_, ?_⟩
  · intro P job s l p h
    simp [BilbyReweight.logWeightOf, h]
  · intro P job r h
    exact BilbyReweight.compute_log_evidence job r h
  · intro z
    norm_num [BilbyReweight.logWeights, BilbyReweight.logWeightOf,
      BilbyReweight.scenarioJob3]
  · intro z r h
    have hev := BilbyReweight.compute_log_evidence _ r h
    have hact : BilbyReweight.activeLogWeights (BilbyReweight.scenarioJob3 z) =
        [1, 2, 3] := by
      norm_num [BilbyReweight.activeLogWeights, BilbyReweight.logWeights,
        BilbyReweight.logWeightOf, BilbyReweight.scenarioJob3]
      rfl
    rw [hev, hact]
    norm_num [BilbyReweight.scenarioJob3]

/-- Witness for C1 on the §8 scenario with old log-evidence `0`. -/
theorem claim_c1_witness :
    ((BilbyReweight.scenarioJob3 0).newEval 2 = some (2, 0) ∧
      BilbyReweight.logWeightOf (BilbyReweight.scenarioJob3 0) ⟨2, 0, 0⟩ =
        some ((2 + 0) - (0 + 0))) ∧
    BilbyReweight.WeightComputer.compute (BilbyReweight.scenarioJob3 0) =
      .ok BilbyReweight.scenarioResult3 ∧
    BilbyReweight.scenarioResult3.log_evidence_new =
      0 + BilbyReweight.logSumExp [1, 2, 3] - Real.log 3 :=
  ⟨⟨rfl, claim_c1_importance_weight_and_evidence.1 ℝ
      (BilbyReweight.scenarioJob3 0) ⟨2, 0, 0⟩ 2 0 rfl⟩,
    BilbyReweight.compute_scenarioJob3_zero,
    claim_c1_importance_weight_and_evidence.2.2.2 0 BilbyReweight.scenarioResult3
      BilbyReweight.compute_scenarioJob3_zero⟩

namespace BilbyReweight

lemma list_sum_eq_fin_sum (w : List ℝ) :
    w.sum = ∑ i : Fin w.length, w.get i := by
  conv_lhs => rw [← List.ofFn_get w]
  rw [List.sum_ofFn]

lemma list_map_sq_sum (w : List ℝ) :
    (w.map (fun x => x ^ 2)).sum = ∑ i : Fin w.length, w.get i ^ 2 := by
  rw [← List.ofFn_getElem_eq_map, List.sum_ofFn]
  simp [List.get_eq_getElem]

lemma double_sum_sub_sq (n : ℕ) (f : Fin n → ℝ) :
    ∑ i : Fin n, ∑ j : Fin n, (f i - f j) ^ 2 =
      2 * ((n : ℝ) * ∑ i : Fin n, f i ^ 2 - (∑ i : Fin n, f i) ^ 2) := by
  have expand : ∀ i j : Fin n, (f i - f j) ^ 2 =
      f i ^ 2 - 2 * (f i * f j) + f j ^ 2 := fun i j => by ring
  simp_rw [expand, Finset.sum_add_distrib, Finset.sum_sub_distrib,
    Finset.sum_const, Finset.card_univ, Fintype.card_fin, nsmul_eq_mul,
    ← Finset.mul_sum, ← Finset.sum_mul]
  ring

lemma double_sum_sq_eq_zero_iff (n : ℕ) (f : Fin n → ℝ) :
    (∑ i : Fin n, ∑ j : Fin n, (f i - f j) ^ 2) = 0 ↔
      ∀ i j : Fin n, f i = f j := by
  rw [Finset.sum_eq_zero_iff_of_nonneg
    (fun i _ => Finset.sum_nonneg (fun j _ => sq_nonneg _))]
  constructor
  · intro h i j
    have hi := h i (Finset.mem_univ i)
    rw [Finset.sum_eq_zero_iff_of_nonneg (fun j _ => sq_nonneg _)] at hi
    have hij := sq_eq_zero_iff.mp (hi j (Finset.mem_univ j))
    exact sub_eq_zero.mp hij
  · intro h i _
    exact Finset.sum_eq_zero (fun j _ => by simp [h i j])

lemma efficiencyOf_pos_le_one (w : List ℝ) (hne : w ≠ [])
    (hpos : ∀ x ∈ w, 0 < x) :
    (0 < efficiencyOf w ∧ efficiencyOf w ≤ 1) ∧
    (efficiencyOf w = 1 ↔ ∀ a ∈ w, ∀ b ∈ w, a = b) := by
  have hn0 : 0 < w.length := List.length_pos.mpr hne
  have hfpos : ∀ i : Fin w.length, 0 < w.get i :=
    fun i => hpos _ (w.get_mem i.1 i.2)
  have hnonempty : (Finset.univ : Finset (Fin w.length)).Nonempty :=
    ⟨⟨0, hn0⟩, Finset.mem_univ _⟩
  have hSpos : 0 < ∑ i : Fin w.length, w.get i :=
    Finset.sum_pos (fun i _ => hfpos i) hnonempty
  have hQpos : 0 < ∑ i : Fin w.length, w.get i ^ 2 :=
    Finset.sum_pos (fun i _ => pow_pos (hfpos i) 2) hnonempty
  have hdd : 0 ≤ ∑ i : Fin w.length, ∑ j : Fin w.length, (w.get i - w.get j) ^ 2 :=
    Finset.sum_nonneg (fun i _ => Finset.sum_nonneg (fun j _ => sq_nonneg _))
  have hkey := double_sum_sub_sq w.length w.get
  have hle : (∑ i : Fin w.length, w.get i) ^ 2 ≤
      (w.length : ℝ) * ∑ i : Fin w.length, w.get i ^ 2 := by
    nlinarith [hdd, hkey]
  have hden : (0 : ℝ) < (∑ i : Fin w.length, w.get i ^ 2) * w.length :=
    mul_pos hQpos (by exact_mod_cast hn0)
  have hE : efficiencyOf w =
      (∑ i : Fin w.length, w.get i) ^ 2 /
        ((∑ i : Fin w.length, w.get i ^ 2) * w.length) := by
    unfold efficiencyOf effSampleSize
    rw [list_sum_eq_fin_sum, list_map_sq_sum, div_div]
  constructor
  · constructor
    · rw [hE]
      exact div_pos (pow_pos hSpos 2) hden
    · rw [hE]
      rw [div_le_one hden]
      calc (∑ i : Fin w.length, w.get i) ^ 2 ≤
          (w.length : ℝ) * ∑ i : Fin w.length, w.get i ^ 2 := hle
        _ = (∑ i : Fin w.length, w.get i ^ 2) * w.length := by ring
  · rw [hE, div_eq_one_iff_eq (ne_of_gt hden)]
    constructor
    · intro hsq a ha b hb
      have hall : ∀ i j : Fin w.length, w.get i = w.get j := by
        rw [← double_sum_sq_eq_zero_iff]
        nlinarith [hkey, hsq]
      obtain ⟨i, rfl⟩ := List.mem_iff_get.mp ha
      obtain ⟨j, rfl⟩ := List.mem_iff_get.mp hb
      exact hall i j
    · intro hall
      have hij : ∀ i j : Fin w.length, w.get i = w.get j :=
        fun i j => hall _ (w.get_mem i.1 i.2) _ (w.get_mem j.1 j.2)
      have hzero : ∑ i : Fin w.length, ∑ j : Fin w.length,
          (w.get i - w.get j) ^ 2 = 0 :=
        (double_sum_sq_eq_zero_iff w.length w.get).mpr hij
      nlinarith [hkey, hzero]

lemma stabilized_pos (xs : List ℝ) : ∀ x ∈ stabilized xs, 0 < x := by
  intro x hx
  obtain ⟨y, _, rfl⟩ := List.mem_map.mp hx
  exact Real.exp_pos _

lemma stabilized_ne_nil (xs : List ℝ) (h : xs ≠ []) : stabilized xs ≠ [] := by
  simp [stabilized, h]

end BilbyReweight

/-- C6: every `WeightedResult` produced by `WeightComputer.compute` (which
requires at least one active, finite-weight sample) has
`efficiency = N_eff / N` with `N_eff = (sum w)^2 / sum(w^2)` taken over the
active weights, lying in `(0, 1]`, and `efficiency = 1` exactly when all
active weights are equal. -/
theorem claim_c6_efficiency_in_unit_interval :
    ∀ (P : Type) (job : BilbyReweight.ReweightingJob P)
      (r : BilbyReweight.WeightedResult),
      BilbyReweight.WeightComputer.compute job = .ok r →
      (0 < r.efficiency ∧ r.efficiency ≤ 1) ∧
      (r.efficiency = 1 ↔ ∀ a ∈ r.weights, ∀ b ∈ r.weights, a = b) := by
  intro P job r h
  obtain ⟨hw, heff, hne⟩ := BilbyReweight.compute_weights_eq job r h
  have hact : BilbyReweight.activeLogWeights job ≠ [] := by
    intro hnil
    rw [hnil] at hne
    simp at hne
  have := BilbyReweight.efficiencyOf_pos_le_one
    (BilbyReweight.stabilized (BilbyReweight.activeLogWeights job))
    (BilbyReweight.stabilized_ne_nil _ hact)
    (BilbyReweight.stabilized_pos _)
  rw [hw, heff]
  exact this

/-- Witness for C6 on the §8 scenario job. -/
theorem claim_c6_witness :
    BilbyReweight.WeightComputer.compute (BilbyReweight.scenarioJob3 0) =
      .ok BilbyReweight.scenarioResult3 ∧
    ((0 < BilbyReweight.scenarioResult3.efficiency ∧
      BilbyReweight.scenarioResult3.efficiency ≤ 1) ∧
      (BilbyReweight.scenarioResult3.efficiency = 1 ↔
        ∀ a ∈ BilbyReweight.scenarioResult3.weights,
          ∀ b ∈ BilbyReweight.scenarioResult3.weights, a = b)) :=
  ⟨BilbyReweight.compute_scenarioJob3_zero,
    claim_c6_efficiency_in_unit_interval ℝ (BilbyReweight.scenarioJob3 0)
      BilbyReweight.scenarioResult3 BilbyReweight.compute_scenarioJob3_zero⟩

/-- C9: the nested-sampling evidence uncertainty `sqrt(information/n_live)`
is non-negative for every chain, and for fixed information it scales as
`1/sqrt(n_live)`: it factors as `sqrt(information) * (sqrt n_live)⁻¹`. -/
theorem claim_c9_ns_uncertainty_nonneg_scaling :
    (∀ (P : Type) (chain : BilbyReweight.NestedChain P) (newL : P → ℝ),
      0 ≤ BilbyReweight.nsUncertainty chain newL) ∧
    ∀ (P : Type) (chain : BilbyReweight.NestedChain P) (newL : P → ℝ),
      0 ≤ BilbyReweight.nsInformation chain newL →
      BilbyReweight.nsUncertainty chain newL =
        Real.sqrt (BilbyReweight.nsInformation chain newL) *
          (Real.sqrt chain.nLive)⁻¹ := by
  constructor
  · intro P chain newL
    exact Real.sqrt_nonneg _
  · intro P chain newL h
    unfold BilbyReweight.nsUncertainty
    rw [Real.sqrt_div h, div_eq_mul_inv]

/-- Witness for C9 on a one-point chain with zero log-volume increment and
identically-zero new log-likelihood, whose information is exactly zero. -/
theorem claim_c9_witness :
    0 ≤ BilbyReweight.nsInformation
      (BilbyReweight.NestedChain.mk [⟨(0 : ℕ), 0, 0⟩] 4) (fun _ => 0) ∧
    BilbyReweight.nsUncertainty
        (BilbyReweight.NestedChain.mk [⟨(0 : ℕ), 0, 0⟩] 4) (fun _ => 0) =
      Real.sqrt (BilbyReweight.nsInformation
        (BilbyReweight.NestedChain.mk [⟨(0 : ℕ), 0, 0⟩] 4) (fun _ => 0)) *
        (Real.sqrt ((BilbyReweight.NestedChain.mk
          [⟨(0 : ℕ), 0, 0⟩] 4 : BilbyReweight.NestedChain ℕ).nLive))⁻¹ :=
  ⟨by norm_num [BilbyReweight.nsInformation, BilbyReweight.nsLogEvidence,
      BilbyReweight.nsLogWeights, BilbyReweight.logSumExp],
    claim_c9_ns_uncertainty_nonneg_scaling.2 ℕ
      (BilbyReweight.NestedChain.mk [⟨(0 : ℕ), 0, 0⟩] 4) (fun _ => 0)
      (by norm_num [BilbyReweight.nsInformation, BilbyReweight.nsLogEvidence,
        BilbyReweight.nsLogWeights, BilbyReweight.logSumExp])⟩

namespace BilbyReweight

lemma logWeights_all_zero (job : ReweightingJob P)
    (h : ∀ s ∈ job.samples, job.newEval s.params = some (s.logL_old, s.logP_old)) :
    logWeights job = List.replicate job.samples.length (some (0 : ℝ)) := by
  refine List.eq_replicate_iff.mpr ⟨by simp [logWeights], ?_⟩
  intro b hb
  obtain ⟨s, hs, rfl⟩ := List.mem_map.mp hb
  simp [logWeightOf, h s hs]

lemma filterMap_id_replicate_some (n : ℕ) (x : ℝ) :
    (List.replicate n (some x)).filterMap id = List.replicate n x := by
  induction n with
  | zero => rfl
  | succ k ih => simp [List.replicate_succ, ih]

lemma logSumExp_replicate_zero (n : ℕ) :
    logSumExp (List.replicate n (0 : ℝ)) = Real.log n := by
  simp [logSumExp, List.map_replicate, List.sum_replicate, nsmul_eq_mul]

/-- A concrete job whose new model coincides with the old one on every
sample: both samples carry old log-densities `(1, 2)` and the new
evaluator returns `(1, 2)` everywhere. -/
noncomputable def c3Job : ReweightingJob ℕ :=
  { samples := [⟨5, 1, 2⟩, ⟨6, 1, 2⟩]
    newEval := fun _ => some (1, 2)
    log_evidence_old := 4 }

end BilbyReweight

/-- C3: when the new likelihood and prior evaluators coincide with the old
ones on every sample, `WeightComputer.compute` yields constant log-weights
(all zero) and `log_evidence_new = log_evidence_old` exactly (the real
arithmetic of the model makes the floating-point tolerance exact). -/
theorem claim_c3_identical_model_uniform_weights :
    ∀ (P : Type) (job : BilbyReweight.ReweightingJob P),
      (∀ s ∈ job.samples, job.newEval s.params = some (s.logL_old, s.logP_old)) →
      job.samples ≠ [] →
      (∀ w ∈ BilbyReweight.logWeights job, w = some 0) ∧
      ∃ r, BilbyReweight.WeightComputer.compute job = .ok r ∧
        r.log_evidence_new = job.log_evidence_old := by
  intro P job h hne
  have hlw := BilbyReweight.logWeights_all_zero job h
  have hact : (BilbyReweight.logWeights job).filterMap id =
      List.replicate job.samples.length (0 : ℝ) := by
    rw [hlw, BilbyReweight.filterMap_id_replicate_some]
  have hn0 : job.samples.length ≠ 0 := by
    simpa [List.length_eq_zero] using hne
  have hemp : ((BilbyReweight.logWeights job).filterMap id).isEmpty = false := by
    rw [hact]
    cases hc : job.samples.length with
    | zero => exact absurd hc hn0
    | succ k => simp [List.replicate_succ]
  refine ⟨?_, ?_⟩
  · intro w hw
    rw [hlw] at hw
    exact List.eq_of_mem_replicate hw
  · refine ⟨_, BilbyReweight.computeFrom_of_not_isEmpty job _ hemp, ?_⟩
    simp only [hact, BilbyReweight.logSumExp_replicate_zero]
    ring

/-- Witness for C3 on a concrete two-sample job whose new model equals the
old model. -/
theorem claim_c3_witness :
    (∀ s ∈ BilbyReweight.c3Job.samples,
      BilbyReweight.c3Job.newEval s.params = some (s.logL_old, s.logP_old)) ∧
    BilbyReweight.c3Job.samples ≠ [] ∧
    ((∀ w ∈ BilbyReweight.logWeights BilbyReweight.c3Job, w = some 0) ∧
      ∃ r, BilbyReweight.WeightComputer.compute BilbyReweight.c3Job = .ok r ∧
        r.log_evidence_new = BilbyReweight.c3Job.log_evidence_old) :=
  ⟨by simp [BilbyReweight.c3Job], by simp [BilbyReweight.c3Job],
    claim_c3_identical_model_uniform_weights ℕ BilbyReweight.c3Job
      (by simp [BilbyReweight.c3Job]) (by simp [BilbyReweight.c3Job])⟩

namespace BilbyReweight

lemma logWeightOf_eq_none_iff (job : ReweightingJob P) (s : Sample P) :
    logWeightOf job s = none ↔ job.newEval s.params = none := by
  unfold logWeightOf
  cases h : job.newEval s.params <;> simp

lemma compute_error_iff (job : ReweightingJob P) :
    WeightComputer.compute job = .error .AllSamplesRejected ↔
      activeLogWeights job = [] := by
  unfold WeightComputer.compute computeFrom
  by_cases he : ((logWeights job).filterMap id).isEmpty
  · simp [he, List.isEmpty_iff.mp he, activeLogWeights]
  · have : (logWeights job).filterMap id ≠ [] := by
      simpa [List.isEmpty_iff] using he
    simp [he, activeLogWeights, this]

/-- A concrete three-sample job whose middle sample fails with
`DomainError` under the new model (the evaluator returns `none` at its
parameter vector). -/
noncomputable def c4Job : ReweightingJob ℕ :=
  { samples := [⟨0, 0, 0⟩, ⟨1, 0, 0⟩, ⟨2, 0, 0⟩]
    newEval := fun n => if n = 1 then none else some ((n : ℝ), 0)
    log_evidence_old := 0 }

end BilbyReweight

/-- C4: a sample whose new-model evaluation raises `DomainError` gets the
excluded weight (`-infinity`, modelled as `none`) while the others proceed:
on a three-sample job with one failing sample the result has exactly 2
active weights and its efficiency is computed over those 2; and `compute`
fails with `AllSamplesRejected` (returning no result) exactly when every
sample fails. -/
theorem claim_c4_domain_error_exclusion :
    (∀ (P : Type) (job : BilbyReweight.ReweightingJob P)
      (s : BilbyReweight.Sample P),
      job.newEval s.params = none → BilbyReweight.logWeightOf job s = none) ∧
    (∀ (P : Type) (job : BilbyReweight.ReweightingJob P),
      BilbyReweight.WeightComputer.compute job = .error .AllSamplesRejected ↔
        ∀ s ∈ job.samples, job.newEval s.params = none) ∧
    ∃ r, BilbyReweight.WeightComputer.compute BilbyReweight.c4Job = .ok r ∧
      r.weights.length = 2 ∧
      r.efficiency = BilbyReweight.effSampleSize r.weights / 2 := by
  refine ⟨?_, ?_, ?_⟩
  · intro P job s h
    exact (BilbyReweight.logWeightOf_eq_none_iff job s).mpr h
  · intro P job
    rw [BilbyReweight.compute_error_iff, BilbyReweight.activeLogWeights,
      List.filterMap_eq_nil_iff, BilbyReweight.logWeights]
    constructor
    · intro h s hs
      exact (BilbyReweight.logWeightOf_eq_none_iff job s).mp
        (h _ (List.mem_map_of_mem _ hs))
    · intro h w hw
      obtain ⟨s, hs, rfl⟩ := List.mem_map.mp hw
      exact (BilbyReweight.logWeightOf_eq_none_iff job s).mpr (h s hs)
  · have hlwc : BilbyReweight.logWeights BilbyReweight.c4Job =
        [some 0, none, some 2] := by
      norm_num [BilbyReweight.logWeights, BilbyReweight.logWeightOf,
        BilbyReweight.c4Job]
    have hfm : (BilbyReweight.logWeights BilbyReweight.c4Job).filterMap id =
        [0, 2] := by
      rw [hlwc]
      rfl
    have hemp : ((BilbyReweight.logWeights BilbyReweight.c4Job).filterMap id).isEmpty
        = false := by
      rw [hfm]
      rfl
    refine ⟨_, BilbyReweight.computeFrom_of_not_isEmpty _ _ hemp, ?_, ?_⟩
    · simp [BilbyReweight.stabilized, hfm]
    · simp only [BilbyReweight.efficiencyOf, BilbyReweight.stabilized,
        List.length_map, hfm]
      norm_num

/-- Witness for C4: the failing sample of the concrete job is excluded. -/
theorem claim_c4_witness :
    BilbyReweight.c4Job.newEval 1 = none ∧
    BilbyReweight.logWeightOf BilbyReweight.c4Job
      ⟨1, 0, 0⟩ = none :=
  ⟨rfl, claim_c4_domain_error_exclusion.1 ℕ BilbyReweight.c4Job ⟨1, 0, 0⟩ rfl⟩

/-- C5: at the script's `reweight` call, `likelihood_1` (passed as
`old_likelihood`) and `likelihood_2` (passed as `new_likelihood`) reference
the same `WaveformGenerator` object; line 115 mutated that shared object's
`waveform_approximant` to `"IMRPhenomXPHM"` after `likelihood_1` was
constructed, so at the `reweight` call the old-model likelihood evaluates
the `IMRPhenomXPHM` waveform, not the `IMRPhenomXP` waveform that was in
effect while `result_1` was sampled. -/
theorem claim_c5_shared_generator_mutated_before_reweight :
    FakeSamplerScript.likelihood_1.generatorRef =
      FakeSamplerScript.likelihood_2.generatorRef ∧
    FakeSamplerScript.approximantOf FakeSamplerScript.heapAtSampling
      FakeSamplerScript.likelihood_1 = "IMRPhenomXP" ∧
    FakeSamplerScript.approximantOf FakeSamplerScript.heapAtReweight
      FakeSamplerScript.likelihood_1 = "IMRPhenomXPHM" ∧
    FakeSamplerScript.approximantOf FakeSamplerScript.heapAtReweight
      FakeSamplerScript.likelihood_1 ≠
      FakeSamplerScript.approximantOf FakeSamplerScript.heapAtSampling
      FakeSamplerScript.likelihood_1 := by
  refine ⟨rfl, ?_, ?_, ?_⟩ <;>
    simp [FakeSamplerScript.approximantOf, FakeSamplerScript.heapAtSampling,
      FakeSamplerScript.heapAtReweight, FakeSamplerScript.heapLine115,
      FakeSamplerScript.heapLine97, FakeSamplerScript.heapLine58,
      FakeSamplerScript.likelihood_1, FakeSamplerScript.likelihood_2,
      FakeSamplerScript.wfgAddr, Function.update]

namespace BilbyReweight

lemma map_zip_logWeightOfRow (job : ReweightingJob P) :
    ∀ (l : List (Sample P)) (rows : List (ℝ × ℝ)),
      rows.length = l.length →
      (∀ sr ∈ l.zip rows, job.newEval sr.1.params = some sr.2) →
      (l.zip rows).map (fun sr => logWeightOfRow sr.1 sr.2) =
        l.map (logWeightOf job) := by
  intro l
  induction l with
  | nil => intro rows _ _; simp
  | cons s t ih =>
    intro rows hlen hr
    cases rows with
    | nil => simp at hlen
    | cons row rs =>
      simp only [List.zip_cons_cons, List.map_cons]
      have h1 := hr (s, row) (by simp)
      have h2 : logWeightOfRow s row = logWeightOf job s := by
        simp [logWeightOfRow, logWeightOf, h1]
      rw [h2, ih rs (by simpa using hlen) (fun sr hsr => hr sr (by simp [hsr]))]

lemma logWeightsWith_valid (job : ReweightingJob P) (rows : List (ℝ × ℝ))
    (hlen : rows.length = job.samples.length)
    (hrows : ∀ sr ∈ job.samples.zip rows, job.newEval sr.1.params = some sr.2) :
    logWeightsWith job (some rows) = logWeights job := by
  unfold logWeightsWith resolveCache
  simp only [hlen, if_pos]
  exact map_zip_logWeightOfRow job job.samples rows hlen hrows

end BilbyReweight

/-- C7: resuming from a cache holding exactly one valid row per sample, with
the rows equal to the previously computed `(log_likelihood_new,
log_prior_new)` pairs, reproduces exactly the weights of a from-scratch run
on the same samples (bit-identical in the model's exact real arithmetic),
with no warning raised. -/
theorem claim_c7_resume_reproduces_scratch :
    ∀ (P : Type) (job : BilbyReweight.ReweightingJob P) (rows : List (ℝ × ℝ)),
      rows.length = job.samples.length →
      (∀ sr ∈ job.samples.zip rows, job.newEval sr.1.params = some sr.2) →
      BilbyReweight.WeightComputer.computeWithResume job (some rows) =
        ([], BilbyReweight.WeightComputer.compute job) := by
  intro P job rows hlen hrows
  unfold BilbyReweight.WeightComputer.computeWithResume
    BilbyReweight.WeightComputer.compute
  rw [BilbyReweight.logWeightsWith_valid job rows hlen hrows]
  simp [BilbyReweight.resolveCache, hlen]

/-- Witness for C7 on a concrete two-sample job with a two-row cache that
matches the new-model evaluations. -/
theorem claim_c7_witness :
    [((1 : ℝ), (2 : ℝ)), (1, 2)].length = BilbyReweight.c3Job.samples.length ∧
    (∀ sr ∈ BilbyReweight.c3Job.samples.zip [((1 : ℝ), (2 : ℝ)), (1, 2)],
      BilbyReweight.c3Job.newEval sr.1.params = some sr.2) ∧
    BilbyReweight.WeightComputer.computeWithResume BilbyReweight.c3Job
      (some [((1 : ℝ), (2 : ℝ)), (1, 2)]) =
      ([], BilbyReweight.WeightComputer.compute BilbyReweight.c3Job) :=
  ⟨rfl, by simp [BilbyReweight.c3Job],
    claim_c7_resume_reproduces_scratch ℕ BilbyReweight.c3Job
      [((1 : ℝ), (2 : ℝ)), (1, 2)] rfl (by simp [BilbyReweight.c3Job])⟩

/-- C8: a resume cache whose row count differs from the sample count is
discarded wholesale — every sample is recomputed from scratch exactly as
in a cache-free run — and this is surfaced as a `ResumeMismatch` warning
while the computation still returns its (non-fatal) result; an absent
resume file likewise starts a fresh computation with no warning. -/
theorem claim_c8_resume_mismatch_recompute :
    (∀ (P : Type) (job : BilbyReweight.ReweightingJob P) (rows : List (ℝ × ℝ)),
      rows.length ≠ job.samples.length →
      BilbyReweight.WeightComputer.computeWithResume job (some rows) =
        ([.ResumeMismatch], BilbyReweight.WeightComputer.compute job)) ∧
    ∀ (P : Type) (job : BilbyReweight.ReweightingJob P),
      BilbyReweight.WeightComputer.computeWithResume job none =
        ([], BilbyReweight.WeightComputer.compute job) := by
  constructor
  · intro P job rows hne
    unfold BilbyReweight.WeightComputer.computeWithResume
      BilbyReweight.WeightComputer.compute BilbyReweight.logWeightsWith
    simp [BilbyReweight.resolveCache, hne]
  · intro P job
    rfl

/-- Witness for C8 on a concrete job with a one-row cache against two
samples. -/
theorem claim_c8_witness :
    [((1 : ℝ), (2 : ℝ))].length ≠ BilbyReweight.c3Job.samples.length ∧
    BilbyReweight.WeightComputer.computeWithResume BilbyReweight.c3Job
      (some [((1 : ℝ), (2 : ℝ))]) =
      ([.ResumeMismatch], BilbyReweight.WeightComputer.compute BilbyReweight.c3Job) :=
  ⟨by simp [BilbyReweight.c3Job],
    claim_c8_resume_mismatch_recompute.1 ℕ BilbyReweight.c3Job
      [((1 : ℝ), (2 : ℝ))] (by simp [BilbyReweight.c3Job])⟩

/-- C2: for every nested-sampling chain processed with
`use_nested_samples=True`, each point's new nested-sampling log-weight is
its log prior-volume increment (unchanged from the original chain) plus its
new-model log-likelihood, and the returned `log_evidence_new` is the
logsumexp of these log-weights over the whole chain. -/
theorem claim_c2_nested_sampling_weights_and_evidence :
    (∀ (P : Type) (chain : BilbyReweight.NestedChain P) (newL : P → ℝ)
      (i : ℕ) (h : i < chain.points.length)
      (h2 : i < (BilbyReweight.nsLogWeights chain newL).length),
      (BilbyReweight.nsLogWeights chain newL).get ⟨i, h2⟩ =
        (chain.points.get ⟨i, h⟩).logVolIncrement +
          newL (chain.points.get ⟨i, h⟩).params) ∧
    ∀ (P : Type) (chain : BilbyReweight.NestedChain P) (newL : P → ℝ),
      BilbyReweight.nsLogEvidence chain newL =
        BilbyReweight.logSumExp (BilbyReweight.nsLogWeights chain newL) := by
  constructor
  · intro P chain newL i h h2
    simp [BilbyReweight.nsLogWeights]
  · intro P chain newL
    rfl

/-- Witness for C2 at a concrete two-point chain. -/
theorem claim_c2_witness :
    (0 : ℕ) < (BilbyReweight.NestedChain.mk
      [⟨(0 : ℕ), 0, 5⟩, ⟨1, 0, 7⟩] 10).points.length ∧
    (BilbyReweight.nsLogWeights
      (BilbyReweight.NestedChain.mk [⟨(0 : ℕ), 0, 5⟩, ⟨1, 0, 7⟩] 10)
      (fun _ => 2)).get ⟨0, by simp [BilbyReweight.nsLogWeights]⟩ = 5 + 2 := by
  refine ⟨by simp, ?_⟩
  have := claim_c2_nested_sampling_weights_and_evidence.1 ℕ
    (BilbyReweight.NestedChain.mk [⟨(0 : ℕ), 0, 5⟩, ⟨1, 0, 7⟩] 10)
    (fun _ => 2) 0 (by simp) (by simp [BilbyReweight.nsLogWeights])
  simpa using this

namespace FakeSamplerScript

lemma dictGet_replaceKey_ne (d : PriorDict) (k k' : String) (v : Prior)
    (h : k ≠ k') : dictGet (replaceKey d k' v) k = dictGet d k := by
  induction d with
  | nil => rfl
  | cons kv t ih =>
    by_cases hk : kv.1 = k'
    · simp [replaceKey, hk, dictGet, Ne.symm h, ih]
    · simp only [replaceKey, hk, if_false, dictGet, ih]

lemma dictGet_append_single_ne (d : PriorDict) (k k' : String) (v : Prior)
    (h : k ≠ k') : dictGet (d ++ [(k', v)]) k = dictGet d k := by
  induction d with
  | nil => simp [dictGet, Ne.symm h]
  | cons kv t ih =>
    by_cases hk : kv.1 = k <;> simp [dictGet, hk, ih]

lemma dictGet_dictSet_ne (d : PriorDict) (k k' : String) (v : Prior)
    (h : k ≠ k') : dictGet (dictSet d k' v) k = dictGet d k := by
  unfold dictSet
  by_cases hc : containsKey d k'
  · simp [hc, dictGet_replaceKey_ne d k k' v h]
  · simp [hc, dictGet_append_single_ne d k k' v h]

lemma priorHeap_priors_value : priorHeapAtReweight priorsAddr = priorsLine95 := by
  simp [priorHeapAtReweight, priorHeapLine126, priorHeapLine125,
    priorHeapLine124, priorHeapAtSampling, priors2Addr, priorsAddr,
    Function.update]

lemma priorHeap_priors2_value :
    priorHeapAtReweight priors2Addr =
      dictSet (dictSet priorsLine95 "chirp_mass"
          (.uniformInComponentsChirpMass 30 40))
        "mass_ratio" (.uniformInComponentsMassRatio 0.05 0.25) := by
  simp [priorHeapAtReweight, priorHeapLine126, priorHeapLine125,
    priorHeapLine124, priorHeapAtSampling, priors2Addr, priorsAddr,
    Function.update]

end FakeSamplerScript

/-- C10: constructing `priors_2` as `deepcopy(priors)` followed by
replacement of only the `chirp_mass` and `mass_ratio` entries leaves the
dictionary object bound to `priors` — the `old_prior` passed to `reweight`
— holding exactly the value it had during the original sampling run, and
`priors_2` agrees with `priors` on every key other than `chirp_mass` and
`mass_ratio`. -/
theorem claim_c10_deepcopy_prior_isolation :
    FakeSamplerScript.priorHeapAtReweight FakeSamplerScript.priorsAddr =
      FakeSamplerScript.priorHeapAtSampling FakeSamplerScript.priorsAddr ∧
    ∀ k : String, k ≠ "chirp_mass" → k ≠ "mass_ratio" →
      FakeSamplerScript.dictGet
          (FakeSamplerScript.priorHeapAtReweight FakeSamplerScript.priors2Addr) k =
        FakeSamplerScript.dictGet
          (FakeSamplerScript.priorHeapAtReweight FakeSamplerScript.priorsAddr) k := by
  constructor
  · rfl
  · intro k h1 h2
    rw [FakeSamplerScript.priorHeap_priors_value,
      FakeSamplerScript.priorHeap_priors2_value,
      FakeSamplerScript.dictGet_dictSet_ne _ _ _ _ h2,
      FakeSamplerScript.dictGet_dictSet_ne _ _ _ _ h1]

/-- Witness for C10 at the key `"geocent_time"`. -/
theorem claim_c10_witness :
    ("geocent_time" ≠ "chirp_mass" ∧ "geocent_time" ≠ "mass_ratio") ∧
    FakeSamplerScript.dictGet
        (FakeSamplerScript.priorHeapAtReweight FakeSamplerScript.priors2Addr)
        "geocent_time" =
      FakeSamplerScript.dictGet
        (FakeSamplerScript.priorHeapAtReweight FakeSamplerScript.priorsAddr)
        "geocent_time" :=
  ⟨⟨by decide, by decide⟩,
    claim_c10_deepcopy_prior_isolation.2 "geocent_time" (by decide) (by decide)⟩
